import Mathlib

/-!
# Verification of `auto-wasi` (src/lib.rs)

This file gives a shallow embedding of the `auto-wasi` crate: the WASI
version detector `WasiVersion::detect` and the version-polymorphic
dispatcher `AutoWasi`, together with proofs of the specification's
claims about them.

The detector delegates the byte-level walk over the wasm binary to the
external `wasmparser` crate (an external collaborator of this core).
That walk is embedded here at the structural level the spec describes:
a header, then an ordered sequence of `id`/`size`-framed sections, of
which only the import section (id 2) is decoded; each import entry is
a (module-name, field-name, descriptor) record with length-prefixed
UTF-8 names.  Bytes are modelled as `Nat` (values `< 256` in any real
input; the decoders are total over `Nat`).
-/

/-- A structural parse failure ("Malformed Input" in the spec taxonomy).
The message records where parsing failed; the crate surfaces the
underlying parser error unchanged as an `anyhow` error. -/
inductive WasmError where
  | malformed (msg : String) : WasmError
deriving DecidableEq

/-- The version of WASI that a binary relies on (`WasiVersion` in
src/lib.rs): `Snapshot0` is the legacy `wasi_unstable` revision,
`Snapshot1` the current `wasi_snapshot_preview1` revision. -/
inductive WasiVersion where
  | Snapshot0 : WasiVersion
  | Snapshot1 : WasiVersion
deriving DecidableEq

/-- Source `impl Default for WasiVersion` in src/lib.rs: the default is
`Snapshot1`. -/
def WasiVersion.default : WasiVersion := .Snapshot1

/-- The UTF-8 bytes of the legacy import-module name `"wasi_unstable"`
that `WasiVersion::detect` compares each import's module name against. -/
def wasiUnstable : List Nat := [119, 97, 115, 105, 95, 117, 110, 115, 116, 97, 98, 108, 101]

/-- The UTF-8 bytes of the current import-module name
`"wasi_snapshot_preview1"` (documentation only: it is never matched). -/
def wasiSnapshotPreview1 : List Nat :=
  [119, 97, 115, 105, 95, 115, 110, 97, 112, 115, 104, 111, 116, 95,
   112, 114, 101, 118, 105, 101, 119, 49]

/-- The 8-byte wasm module header: magic `\0asm` followed by version 1
(little endian), checked by the parser before any section. -/
def wasmHeader : List Nat := [0x00, 0x61, 0x73, 0x6D, 0x01, 0x00, 0x00, 0x00]

/-- Split off exactly `n` bytes, failing when fewer are available.
This is how a section's payload is sliced out of the stream by its
declared size. -/
def splitAtExact (n : Nat) (bs : List Nat) : Option (List Nat × List Nat) :=
  if n ≤ bs.length then some (bs.take n, bs.drop n) else none

/-- Unsigned LEB128 decoding with an explicit byte budget (`u32` values
use at most 5 bytes).  Returns the decoded value and the remaining
bytes, or `none` on a truncated or over-long encoding. -/
def leb128Core : Nat → List Nat → Option (Nat × List Nat)
  | 0, _ => none
  | _ + 1, [] => none
  | cap + 1, b :: rest =>
    if b < 128 then some (b, rest)
    else
      match leb128Core cap rest with
      | some (v, rest') => some (b % 128 + 128 * v, rest')
      | none => none

/-- Unsigned LEB128 decoding of a `u32` (at most 5 bytes). -/
def leb128 (bs : List Nat) : Option (Nat × List Nat) :=
  leb128Core 5 bs

/-- UTF-8 validity of a byte sequence, as the parser checks each
length-prefixed name (rejecting overlong forms, surrogates and
codepoints above U+10FFFF). -/
def isValidUtf8 : List Nat → Bool
  | [] => true
  | b :: rest =>
    if b ≤ 0x7F then isValidUtf8 rest
    else if b < 0xC2 then false
    else if b ≤ 0xDF then
      match rest with
      | b1 :: rest' => decide (0x80 ≤ b1 ∧ b1 ≤ 0xBF) && isValidUtf8 rest'
      | [] => false
    else if b ≤ 0xEF then
      match rest with
      | b1 :: b2 :: rest' =>
        decide ((if b = 0xE0 then 0xA0 else 0x80) ≤ b1 ∧
                b1 ≤ (if b = 0xED then 0x9F else 0xBF)) &&
        decide (0x80 ≤ b2 ∧ b2 ≤ 0xBF) && isValidUtf8 rest'
      | _ => false
    else if b ≤ 0xF4 then
      match rest with
      | b1 :: b2 :: b3 :: rest' =>
        decide ((if b = 0xF0 then 0x90 else 0x80) ≤ b1 ∧
                b1 ≤ (if b = 0xF4 then 0x8F else 0xBF)) &&
        decide (0x80 ≤ b2 ∧ b2 ≤ 0xBF) && decide (0x80 ≤ b3 ∧ b3 ≤ 0xBF) &&
        isValidUtf8 rest'
      | _ => false
    else false

/-- Parse a length-prefixed name: LEB128 length, then that many bytes,
which must be valid UTF-8.  Returns the name's bytes and the rest. -/
def parseName (bs : List Nat) : Except WasmError (List Nat × List Nat) :=
  match leb128 bs with
  | none => .error (.malformed "name length")
  | some (len, rest) =>
    match splitAtExact len rest with
    | none => .error (.malformed "name out of bounds")
    | some (name, rest') =>
      if isValidUtf8 name then .ok (name, rest')
      else .error (.malformed "invalid utf-8 in name")

/-- Parse table/memory limits: a flag byte (0 or 1), a LEB128 minimum,
and a LEB128 maximum when the flag is 1. -/
def parseLimits (bs : List Nat) : Except WasmError (List Nat) :=
  match bs with
  | [] => .error (.malformed "limits: eof")
  | flag :: rest =>
    if flag = 0 then
      match leb128 rest with
      | none => .error (.malformed "limits: min")
      | some (_, rest') => .ok rest'
    else if flag = 1 then
      match leb128 rest with
      | none => .error (.malformed "limits: min")
      | some (_, rest') =>
        match leb128 rest' with
        | none => .error (.malformed "limits: max")
        | some (_, rest'') => .ok rest''
    else .error (.malformed "limits: flag")

/-- The numeric value types of the wasm MVP (i32, i64, f32, f64). -/
def isValType (b : Nat) : Bool :=
  b = 0x7F || b = 0x7E || b = 0x7D || b = 0x7C

/-- Parse an import descriptor: a kind byte, then a type index (func),
an element type and limits (table), limits (memory), or a value type
and mutability byte (global). -/
def parseImportDesc (bs : List Nat) : Except WasmError (List Nat) :=
  match bs with
  | [] => .error (.malformed "import desc: eof")
  | k :: rest =>
    if k = 0 then
      match leb128 rest with
      | none => .error (.malformed "import desc: type index")
      | some (_, rest') => .ok rest'
    else if k = 1 then
      match rest with
      | 0x70 :: rest' => parseLimits rest'
      | _ => .error (.malformed "import desc: table element type")
    else if k = 2 then parseLimits rest
    else if k = 3 then
      match rest with
      | t :: m :: rest' =>
        if isValType t && (m = 0 || m = 1) then .ok rest'
        else .error (.malformed "import desc: global type")
      | _ => .error (.malformed "import desc: global eof")
    else .error (.malformed "import desc: kind")

/-- Parse one import entry (module name, field name, descriptor),
returning the module-name bytes (the only field `detect` inspects) and
the remaining bytes. -/
def parseImport (bs : List Nat) : Except WasmError (List Nat × List Nat) :=
  match parseName bs with
  | .error e => .error e
  | .ok (modname, rest) =>
    match parseName rest with
    | .error e => .error e
    | .ok (_, rest') =>
      match parseImportDesc rest' with
      | .error e => .error e
      | .ok rest'' => .ok (modname, rest'')

/-- The inner loop of `WasiVersion::detect` over one import section's
entries: parse each of the `n` declared entries in file order and
return `true` as soon as one's module name equals `"wasi_unstable"`,
without parsing any later entry. -/
def scanImportEntries : Nat → List Nat → Except WasmError Bool
  | 0, _ => .ok false
  | n + 1, bs =>
    match parseImport bs with
    | .error e => .error e
    | .ok (modname, rest) =>
      if modname = wasiUnstable then .ok true
      else scanImportEntries n rest

/-- Scan one import section's payload: LEB128 entry count, then the
entries. -/
def scanImportSection (payload : List Nat) : Except WasmError Bool :=
  match leb128 payload with
  | none => .error (.malformed "import count")
  | some (count, rest) => scanImportEntries count rest

/-- The section loop of `WasiVersion::detect`, with fuel for
termination (any fuel above the input length is enough, see
`scanSectionsF_fuel_irrel`).  Each section is an id byte and a LEB128
size framing its payload; only import sections (id 2) are decoded, all
others are skipped uninterpreted.  A matching import returns
`Snapshot0` at once; an exhausted stream returns the default. -/
def scanSectionsF : Nat → List Nat → Except WasmError WasiVersion
  | 0, _ => .error (.malformed "fuel exhausted")
  | _ + 1, [] => .ok WasiVersion.default
  | fuel + 1, id :: rest =>
    match leb128 rest with
    | none => .error (.malformed "section size")
    | some (size, rest') =>
      match splitAtExact size rest' with
      | none => .error (.malformed "section out of bounds")
      | some (payload, rest'') =>
        if id = 2 then
          match scanImportSection payload with
          | .error e => .error e
          | .ok true => .ok WasiVersion.Snapshot0
          | .ok false => scanSectionsF fuel rest''
        else scanSectionsF fuel rest''

/-- Embeds `WasiVersion::detect` with explicit fuel: check the 8-byte header,
then scan the sections. -/
def WasiVersion.detectF (fuel : Nat) (binary : List Nat) : Except WasmError WasiVersion :=
  if binary.take 8 = wasmHeader then scanSectionsF fuel (binary.drop 8)
  else .error (.malformed "bad wasm header")

/-- Embeds `WasiVersion::detect` (src/lib.rs, lines 96-111): detect the WASI
version used by the binary, defaulting to the latest. -/
def WasiVersion.detect (binary : List Nat) : Except WasmError WasiVersion :=
  WasiVersion.detectF (binary.length + 1) binary

/-- Full enumeration of the import module-names, with the same fuel
discipline as `scanSectionsF`: parse every entry of the section without
short-circuiting. Used (following the spec's words) to characterise the
modules "well-formed at the structural level needed to enumerate
imports" and the names their import sections declare. -/
def collectImportEntries : Nat → List Nat → Option (List (List Nat))
  | 0, _ => some []
  | n + 1, bs =>
    match parseImport bs with
    | .error _ => none
    | .ok (modname, rest) =>
      match collectImportEntries n rest with
      | none => none
      | some names => some (modname :: names)

/-- Enumerate one import section's module names: LEB128 entry count,
then every entry. -/
def collectImportSection (payload : List Nat) : Option (List (List Nat)) :=
  match leb128 payload with
  | none => none
  | some (count, rest) => collectImportEntries count rest

/-- Enumerate the import module-names of every section of the stream,
in file order, or `none` when the stream is structurally malformed. -/
def collectSectionsF : Nat → List Nat → Option (List (List Nat))
  | 0, _ => none
  | _ + 1, [] => some []
  | fuel + 1, id :: rest =>
    match leb128 rest with
    | none => none
    | some (size, rest') =>
      match splitAtExact size rest' with
      | none => none
      | some (payload, rest'') =>
        if id = 2 then
          match collectImportSection payload with
          | none => none
          | some names =>
            match collectSectionsF fuel rest'' with
            | none => none
            | some names' => some (names ++ names')
        else collectSectionsF fuel rest''

/-- The import module-names a binary declares: `some names` exactly
when the binary is well-formed at the structural level needed to
enumerate all imports, `none` otherwise. -/
def collectImports (binary : List Nat) : Option (List (List Nat)) :=
  if binary.take 8 = wasmHeader then collectSectionsF (binary.length + 1) (binary.drop 8)
  else none

/-- An execution context (`wasi_common::WasiCtx`), opaque to this core
and passed through unchanged to the host-function library. -/
structure WasiCtx where
  id : Nat

/-- A wasmtime `Store`, opaque to this core. -/
structure Store where
  id : Nat

/-- A wasmtime `Func`: an opaque callable handed out by export lookup. -/
structure Func where
  id : Nat
deriving DecidableEq

/-- Modelled from the spec: a snapshot-0 Host Handle
(`wasmtime_wasi::old::snapshot_0::Wasi`, an external collaborator).
The core observes it only through its named exports. -/
structure Snapshot0Wasi where
  exports : List (String × Func)

/-- Modelled from the spec: a snapshot-1 Host Handle
(`wasmtime_wasi::Wasi`, an external collaborator). -/
structure Snapshot1Wasi where
  exports : List (String × Func)

/-- Modelled from the spec: the external host-function library's
constructors, one per ABI revision, each building a Host Handle from a
store and an execution context.  In the wasmtime-wasi version this
crate binds, both constructors are infallible (`Wasi::new` returns the
handle directly), so they are total functions here.  Theorems
quantify over `HostLib`, so they hold for every behaviour of the
external library. -/
structure HostLib where
  snapshot0New : Store → WasiCtx → Snapshot0Wasi
  snapshot1New : Store → WasiCtx → Snapshot1Wasi

/-- Lookup `get_export` of the snapshot-0 handle: name-based lookup among its
exports, `none` when absent. -/
def Snapshot0Wasi.get_export (w : Snapshot0Wasi) (name : String) : Option Func :=
  (w.exports.find? (fun p => p.1 == name)).map (fun p => p.2)

/-- Lookup `get_export` of the snapshot-1 handle. -/
def Snapshot1Wasi.get_export (w : Snapshot1Wasi) (name : String) : Option Func :=
  (w.exports.find? (fun p => p.1 == name)).map (fun p => p.2)

/-- The implementation revision of a snapshot-0 handle.  Modelled from
the spec: each host library implements the surface of exactly one ABI
revision. -/
def Snapshot0Wasi.revision (_ : Snapshot0Wasi) : WasiVersion := .Snapshot0

/-- The implementation revision of a snapshot-1 handle. -/
def Snapshot1Wasi.revision (_ : Snapshot1Wasi) : WasiVersion := .Snapshot1

/-- A namespace-collision failure raised by the linker when a name is
already bound. -/
inductive LinkError where
  | collision (name : String) : LinkError
deriving DecidableEq

/-- A wasmtime `Linker`: a registry of named callables that rejects
re-binding an already-bound name. -/
structure Linker where
  defs : List (String × Func)

/-- Insert one named callable, failing on collision. -/
def Linker.define (l : Linker) (name : String) (f : Func) : Except LinkError Linker :=
  if l.defs.any (fun p => p.1 == name) then .error (.collision name)
  else .ok { defs := l.defs ++ [(name, f)] }

/-- Register a handle's exports into a linker one by one; a collision
aborts, leaving earlier insertions in place. -/
def registerAll (l : Linker) : List (String × Func) → Except LinkError Linker
  | [] => .ok l
  | (n, f) :: rest =>
    match l.define n f with
    | .error e => .error e
    | .ok l' => registerAll l' rest

/-- The `AutoWasi` dispatcher (src/lib.rs, lines 37-42): a tagged union
holding the snapshot-0 or the snapshot-1 Host Handle. -/
inductive AutoWasi where
  | Snapshot0 : Snapshot0Wasi → AutoWasi
  | Snapshot1 : Snapshot1Wasi → AutoWasi

/-- Embeds `AutoWasi::new` (src/lib.rs, lines 54-65): build the Host Handle
matching the given revision by delegating to the host-function library,
and wrap it in the matching variant. -/
def AutoWasi.new (lib : HostLib) (store : Store) (ctx : WasiCtx) (version : WasiVersion) :
    AutoWasi :=
  match version with
  | .Snapshot0 => .Snapshot0 (lib.snapshot0New store ctx)
  | .Snapshot1 => .Snapshot1 (lib.snapshot1New store ctx)

/-- Embeds `AutoWasi::detect` (src/lib.rs, lines 47-50): run version detection
on the binary, then construct from the detected revision; `?` surfaces
a detection failure unchanged. -/
def AutoWasi.detect (lib : HostLib) (store : Store) (ctx : WasiCtx) (binary : List Nat) :
    Except WasmError AutoWasi :=
  match WasiVersion.detect binary with
  | .error e => .error e
  | .ok version => .ok (AutoWasi.new lib store ctx version)

/-- Embeds `AutoWasi::get_export` (src/lib.rs, lines 69-74): dispatch the
lookup to whichever handle is held. -/
def AutoWasi.get_export (w : AutoWasi) (name : String) : Option Func :=
  match w with
  | .Snapshot0 wasi => wasi.get_export name
  | .Snapshot1 wasi => wasi.get_export name

/-- Embeds `AutoWasi::add_to_linker` (src/lib.rs, lines 77-82): dispatch the
registration to whichever handle is held. -/
def AutoWasi.add_to_linker (w : AutoWasi) (linker : Linker) : Except LinkError Linker :=
  match w with
  | .Snapshot0 wasi => registerAll linker wasi.exports
  | .Snapshot1 wasi => registerAll linker wasi.exports

/-- The variant tag of a dispatcher, as a revision. -/
def AutoWasi.tag : AutoWasi → WasiVersion
  | .Snapshot0 _ => .Snapshot0
  | .Snapshot1 _ => .Snapshot1

/-- The implementation revision of the handle a dispatcher holds. -/
def AutoWasi.handleRevision : AutoWasi → WasiVersion
  | .Snapshot0 w => w.revision
  | .Snapshot1 w => w.revision

/-- The named exports of the handle a dispatcher holds. -/
def AutoWasi.exports : AutoWasi → List (String × Func)
  | .Snapshot0 w => w.exports
  | .Snapshot1 w => w.exports

/-- A complete module importing `("wasi_unstable", "", func 0)`
(scenario 1 of the spec). -/
def modLegacy : List Nat := wasmHeader ++ ([2, 18, 1, 13] ++ wasiUnstable ++ [0, 0, 0])

/-- A complete module importing `("wasi_snapshot_preview1", "", func 0)`
(scenario 2 of the spec). -/
def modCurrent : List Nat :=
  wasmHeader ++ ([2, 27, 1, 22] ++ wasiSnapshotPreview1 ++ [0, 0, 0])

/-- A module whose import section declares two entries, the first
naming `wasi_unstable`, the second structurally corrupt (its
module-name length byte 0xFF starts an over-long LEB128 run that hits
the end of the section). -/
def modCorruptAfterMatch : List Nat :=
  wasmHeader ++ ([2, 21, 2, 13] ++ wasiUnstable ++ [0, 0, 0] ++ [255, 255, 255])

/-- A module with a well-formed legacy import section followed by a
truncated section: a bare section id with no size. -/
def modTruncatedTail : List Nat :=
  wasmHeader ++ ([2, 18, 1, 13] ++ wasiUnstable ++ [0, 0, 0]) ++ [13]

example : WasiVersion.detect (wasmHeader ++
    ([2, 18, 1, 13] ++ wasiUnstable ++ [0, 0, 0])) = .ok .Snapshot0 := by rfl

example : collectImports modLegacy = some [wasiUnstable] := by rfl

example : collectImports modCurrent = some [wasiSnapshotPreview1] := by rfl

example : collectImports modCorruptAfterMatch = none := by rfl

example : WasiVersion.detect modCorruptAfterMatch = .ok .Snapshot0 := by rfl

example : collectImports modTruncatedTail = none := by rfl

example : WasiVersion.detect modTruncatedTail = .ok .Snapshot0 := by rfl

example : WasiVersion.detect (wasmHeader ++
    ([2, 27, 1, 22] ++ wasiSnapshotPreview1 ++ [0, 0, 0])) = .ok .Snapshot1 := by rfl

example : WasiVersion.detect wasmHeader = .ok .Snapshot1 := by rfl

example : WasiVersion.detect [0, 97] = .error (.malformed "bad wasm header") := by rfl

/-- Decoding a LEB128 value strictly consumes input. -/
theorem leb128Core_length {cap : Nat} {bs rest : List Nat} {v : Nat}
    (h : leb128Core cap bs = some (v, rest)) : rest.length < bs.length := by
  induction cap generalizing bs v rest with
  | zero => simp [leb128Core] at h
  | succ cap ih =>
    cases bs with
    | nil => simp [leb128Core] at h
    | cons b tl =>
      unfold leb128Core at h
      by_cases hb : b < 128
      · simp only [if_pos hb, Option.some.injEq, Prod.mk.injEq] at h
        obtain ⟨-, h2⟩ := h
        subst h2
        simp
      · simp only [if_neg hb] at h
        cases hrec : leb128Core cap tl with
        | none => rw [hrec] at h; exact absurd h (by simp)
        | some pr =>
          obtain ⟨v', r'⟩ := pr
          rw [hrec] at h
          simp only [Option.some.injEq, Prod.mk.injEq] at h
          obtain ⟨-, h2⟩ := h
          subst h2
          exact Nat.lt_succ_of_lt (ih hrec)

/-- Decoding a `u32` strictly consumes input. -/
theorem leb128_length {bs rest : List Nat} {v : Nat}
    (h : leb128 bs = some (v, rest)) : rest.length < bs.length :=
  leb128Core_length h

/-- Characterisation of a successful exact split. -/
theorem splitAtExact_eq {n : Nat} {bs payload rest : List Nat}
    (h : splitAtExact n bs = some (payload, rest)) :
    payload = bs.take n ∧ rest = bs.drop n ∧ n ≤ bs.length := by
  unfold splitAtExact at h
  by_cases hn : n ≤ bs.length
  · simp only [if_pos hn, Option.some.injEq, Prod.mk.injEq] at h
    exact ⟨h.1.symm, h.2.symm, hn⟩
  · simp [if_neg hn] at h

/-- An exact split never lengthens the remainder. -/
theorem splitAtExact_length {n : Nat} {bs payload rest : List Nat}
    (h : splitAtExact n bs = some (payload, rest)) : rest.length ≤ bs.length := by
  obtain ⟨-, h2, -⟩ := splitAtExact_eq h
  subst h2
  rw [List.length_drop]
  exact Nat.sub_le _ _

/-- LEB128 decoding is incremental: bytes past a successful decode are
never read, so appending anything leaves the decode unchanged. -/
theorem leb128Core_append {cap : Nat} {bs rest t : List Nat} {v : Nat}
    (h : leb128Core cap bs = some (v, rest)) :
    leb128Core cap (bs ++ t) = some (v, rest ++ t) := by
  induction cap generalizing bs v rest with
  | zero => simp [leb128Core] at h
  | succ cap ih =>
    cases bs with
    | nil => simp [leb128Core] at h
    | cons b tl =>
      rw [List.cons_append]
      unfold leb128Core at h ⊢
      by_cases hb : b < 128
      · simp only [if_pos hb, Option.some.injEq, Prod.mk.injEq] at h ⊢
        exact ⟨h.1, by rw [h.2]⟩
      · simp only [if_neg hb] at h ⊢
        cases hrec : leb128Core cap tl with
        | none => rw [hrec] at h; exact absurd h (by simp)
        | some pr =>
          obtain ⟨v', r'⟩ := pr
          rw [hrec] at h
          simp only [Option.some.injEq, Prod.mk.injEq] at h
          obtain ⟨h1, h2⟩ := h
          rw [ih hrec]
          simp only [Option.some.injEq, Prod.mk.injEq]
          exact ⟨h1, by rw [h2]⟩

/-- Append-stability of `u32` decoding. -/
theorem leb128_append {bs rest t : List Nat} {v : Nat}
    (h : leb128 bs = some (v, rest)) :
    leb128 (bs ++ t) = some (v, rest ++ t) :=
  leb128Core_append h

/-- Append-stability of the exact split: the sliced payload is
unchanged and the appended bytes stay in the remainder. -/
theorem splitAtExact_append {n : Nat} {bs payload rest t : List Nat}
    (h : splitAtExact n bs = some (payload, rest)) :
    splitAtExact n (bs ++ t) = some (payload, rest ++ t) := by
  obtain ⟨h1, h2, h3⟩ := splitAtExact_eq h
  unfold splitAtExact
  have hn : n ≤ (bs ++ t).length := by
    rw [List.length_append]
    omega
  rw [if_pos hn]
  have ht : (bs ++ t).take n = bs.take n := List.take_append_of_le_length h3
  have hd : (bs ++ t).drop n = bs.drop n ++ t := List.drop_append_of_le_length h3
  rw [ht, hd, ← h1, ← h2]

/-- When every entry of an import section parses and one of its
module names is the legacy name, the short-circuiting entry scan
reports a match. -/
theorem scan_entries_mem {n : Nat} {bs : List Nat} {names : List (List Nat)}
    (h : collectImportEntries n bs = some names) (hm : wasiUnstable ∈ names) :
    scanImportEntries n bs = .ok true := by
  induction n generalizing bs names with
  | zero =>
    simp only [collectImportEntries, Option.some.injEq] at h
    subst h
    simp at hm
  | succ n ih =>
    unfold collectImportEntries at h
    unfold scanImportEntries
    cases hp : parseImport bs with
    | error e => rw [hp] at h; dsimp only at h; exact absurd h (by simp)
    | ok pr =>
      obtain ⟨modname, rest⟩ := pr
      rw [hp] at h
      dsimp only at h ⊢
      by_cases hmod : modname = wasiUnstable
      · simp [hmod]
      · simp only [if_neg hmod]
        cases hc : collectImportEntries n rest with
        | none => rw [hc] at h; dsimp only at h; exact absurd h (by simp)
        | some names' =>
          rw [hc] at h
          dsimp only at h
          simp only [Option.some.injEq] at h
          subst h
          rcases List.mem_cons.mp hm with h1 | h1
          · exact absurd h1.symm hmod
          · exact ih hc h1

/-- When every entry of an import section parses and none of its
module names is the legacy name, the entry scan reports no match. -/
theorem scan_entries_not_mem {n : Nat} {bs : List Nat} {names : List (List Nat)}
    (h : collectImportEntries n bs = some names) (hm : wasiUnstable ∉ names) :
    scanImportEntries n bs = .ok false := by
  induction n generalizing bs names with
  | zero => simp [scanImportEntries]
  | succ n ih =>
    unfold collectImportEntries at h
    unfold scanImportEntries
    cases hp : parseImport bs with
    | error e => rw [hp] at h; dsimp only at h; exact absurd h (by simp)
    | ok pr =>
      obtain ⟨modname, rest⟩ := pr
      rw [hp] at h
      dsimp only at h ⊢
      cases hc : collectImportEntries n rest with
      | none => rw [hc] at h; dsimp only at h; exact absurd h (by simp)
      | some names' =>
        rw [hc] at h
        dsimp only at h
        simp only [Option.some.injEq] at h
        subst h
        by_cases hmod : modname = wasiUnstable
        · exact absurd (List.mem_cons.mpr (Or.inl hmod.symm)) hm
        · simp only [if_neg hmod]
          exact ih hc (fun hx => hm (List.mem_cons_of_mem _ hx))

/-- When the entries of an import section cannot all be parsed, the
entry scan either short-circuited on an earlier legacy match or fails
on the malformed entry. -/
theorem scan_entries_none {n : Nat} {bs : List Nat}
    (h : collectImportEntries n bs = none) :
    scanImportEntries n bs = .ok true ∨ ∃ e, scanImportEntries n bs = .error e := by
  induction n generalizing bs with
  | zero => simp [collectImportEntries] at h
  | succ n ih =>
    unfold collectImportEntries at h
    unfold scanImportEntries
    cases hp : parseImport bs with
    | error e =>
      right
      exact ⟨e, rfl⟩
    | ok pr =>
      obtain ⟨modname, rest⟩ := pr
      rw [hp] at h
      dsimp only at h ⊢
      by_cases hmod : modname = wasiUnstable
      · left; simp [hmod]
      · simp only [if_neg hmod]
        cases hc : collectImportEntries n rest with
        | none => exact ih hc
        | some names' => rw [hc] at h; dsimp only at h; exact absurd h (by simp)

/-- Section-payload version of `scan_entries_mem`. -/
theorem scan_section_mem {payload : List Nat} {names : List (List Nat)}
    (h : collectImportSection payload = some names) (hm : wasiUnstable ∈ names) :
    scanImportSection payload = .ok true := by
  unfold collectImportSection at h
  unfold scanImportSection
  cases hl : leb128 payload with
  | none => rw [hl] at h; dsimp only at h; exact absurd h (by simp)
  | some pr =>
    obtain ⟨count, rest⟩ := pr
    rw [hl] at h
    dsimp only at h ⊢
    exact scan_entries_mem h hm

/-- Section-payload version of `scan_entries_not_mem`. -/
theorem scan_section_not_mem {payload : List Nat} {names : List (List Nat)}
    (h : collectImportSection payload = some names) (hm : wasiUnstable ∉ names) :
    scanImportSection payload = .ok false := by
  unfold collectImportSection at h
  unfold scanImportSection
  cases hl : leb128 payload with
  | none => rw [hl] at h; dsimp only at h; exact absurd h (by simp)
  | some pr =>
    obtain ⟨count, rest⟩ := pr
    rw [hl] at h
    dsimp only at h ⊢
    exact scan_entries_not_mem h hm

/-- Section-payload version of `scan_entries_none`. -/
theorem scan_section_none {payload : List Nat}
    (h : collectImportSection payload = none) :
    scanImportSection payload = .ok true ∨ ∃ e, scanImportSection payload = .error e := by
  unfold collectImportSection at h
  unfold scanImportSection
  cases hl : leb128 payload with
  | none => right; exact ⟨.malformed "import count", rfl⟩
  | some pr =>
    obtain ⟨count, rest⟩ := pr
    rw [hl] at h
    dsimp only at h ⊢
    exact scan_entries_none h

/-- When the whole stream of sections parses and some import section
declares the legacy module name, the section scan returns `Snapshot0`. -/
theorem scan_sections_mem {f : Nat} {bs : List Nat} {names : List (List Nat)}
    (h : collectSectionsF f bs = some names) (hm : wasiUnstable ∈ names) :
    scanSectionsF f bs = .ok .Snapshot0 := by
  induction f generalizing bs names with
  | zero => simp [collectSectionsF] at h
  | succ f ih =>
    cases bs with
    | nil =>
      simp only [collectSectionsF, Option.some.injEq] at h
      subst h
      simp at hm
    | cons sid rest =>
      unfold collectSectionsF at h
      unfold scanSectionsF
      cases hl : leb128 rest with
      | none => rw [hl] at h; dsimp only at h; exact absurd h (by simp)
      | some pr =>
        obtain ⟨size, rest'⟩ := pr
        rw [hl] at h
        dsimp only at h ⊢
        cases hs : splitAtExact size rest' with
        | none => rw [hs] at h; dsimp only at h; exact absurd h (by simp)
        | some pr2 =>
          obtain ⟨payload, rest''⟩ := pr2
          rw [hs] at h
          dsimp only at h ⊢
          by_cases hid : sid = 2
          · simp only [if_pos hid] at h ⊢
            cases hcs : collectImportSection payload with
            | none => rw [hcs] at h; dsimp only at h; exact absurd h (by simp)
            | some secNames =>
              rw [hcs] at h
              dsimp only at h
              cases hcr : collectSectionsF f rest'' with
              | none => rw [hcr] at h; dsimp only at h; exact absurd h (by simp)
              | some restNames =>
                rw [hcr] at h
                dsimp only at h
                simp only [Option.some.injEq] at h
                subst h
                rcases List.mem_append.mp hm with h1 | h1
                · rw [scan_section_mem hcs h1]
                · by_cases h2 : wasiUnstable ∈ secNames
                  · rw [scan_section_mem hcs h2]
                  · rw [scan_section_not_mem hcs h2]
                    exact ih hcr h1
          · simp only [if_neg hid] at h ⊢
            exact ih h hm

/-- When the whole stream of sections parses and no import section
declares the legacy module name, the section scan returns the default
`Snapshot1`. -/
theorem scan_sections_not_mem {f : Nat} {bs : List Nat} {names : List (List Nat)}
    (h : collectSectionsF f bs = some names) (hm : wasiUnstable ∉ names) :
    scanSectionsF f bs = .ok .Snapshot1 := by
  induction f generalizing bs names with
  | zero => simp [collectSectionsF] at h
  | succ f ih =>
    cases bs with
    | nil => simp [scanSectionsF, WasiVersion.default]
    | cons sid rest =>
      unfold collectSectionsF at h
      unfold scanSectionsF
      cases hl : leb128 rest with
      | none => rw [hl] at h; dsimp only at h; exact absurd h (by simp)
      | some pr =>
        obtain ⟨size, rest'⟩ := pr
        rw [hl] at h
        dsimp only at h ⊢
        cases hs : splitAtExact size rest' with
        | none => rw [hs] at h; dsimp only at h; exact absurd h (by simp)
        | some pr2 =>
          obtain ⟨payload, rest''⟩ := pr2
          rw [hs] at h
          dsimp only at h ⊢
          by_cases hid : sid = 2
          · simp only [if_pos hid] at h ⊢
            cases hcs : collectImportSection payload with
            | none => rw [hcs] at h; dsimp only at h; exact absurd h (by simp)
            | some secNames =>
              rw [hcs] at h
              dsimp only at h
              cases hcr : collectSectionsF f rest'' with
              | none => rw [hcr] at h; dsimp only at h; exact absurd h (by simp)
              | some restNames =>
                rw [hcr] at h
                dsimp only at h
                simp only [Option.some.injEq] at h
                subst h
                have h1 : wasiUnstable ∉ secNames := fun hx =>
                  hm (List.mem_append.mpr (Or.inl hx))
                have h2 : wasiUnstable ∉ restNames := fun hx =>
                  hm (List.mem_append.mpr (Or.inr hx))
                rw [scan_section_not_mem hcs h1]
                exact ih hcr h2
          · simp only [if_neg hid] at h ⊢
            exact ih h hm

/-- When the stream of sections is structurally malformed, the section
scan either already returned `Snapshot0` from a legacy import parsed
before the corruption, or fails. -/
theorem scan_sections_none {f : Nat} {bs : List Nat}
    (h : collectSectionsF f bs = none) :
    scanSectionsF f bs = .ok .Snapshot0 ∨ ∃ e, scanSectionsF f bs = .error e := by
  induction f generalizing bs with
  | zero => right; exact ⟨.malformed "fuel exhausted", rfl⟩
  | succ f ih =>
    cases bs with
    | nil => simp [collectSectionsF] at h
    | cons sid rest =>
      unfold collectSectionsF at h
      unfold scanSectionsF
      cases hl : leb128 rest with
      | none => right; exact ⟨.malformed "section size", rfl⟩
      | some pr =>
        obtain ⟨size, rest'⟩ := pr
        rw [hl] at h
        dsimp only at h ⊢
        cases hs : splitAtExact size rest' with
        | none => right; exact ⟨.malformed "section out of bounds", rfl⟩
        | some pr2 =>
          obtain ⟨payload, rest''⟩ := pr2
          rw [hs] at h
          dsimp only at h ⊢
          by_cases hid : sid = 2
          · simp only [if_pos hid] at h ⊢
            cases hcs : collectImportSection payload with
            | none =>
              rcases scan_section_none hcs with h1 | ⟨e, h1⟩
              · left; rw [h1]
              · right; exact ⟨e, by rw [h1]⟩
            | some secNames =>
              rw [hcs] at h
              dsimp only at h
              cases hcr : collectSectionsF f rest'' with
              | none =>
                by_cases h2 : wasiUnstable ∈ secNames
                · left; rw [scan_section_mem hcs h2]
                · rw [scan_section_not_mem hcs h2]
                  exact ih hcr
              | some restNames => rw [hcr] at h; dsimp only at h; exact absurd h (by simp)
          · simp only [if_neg hid] at h ⊢
            exact ih h

/-- The section scan settles within fuel equal to the input length:
any two fuels above the input length give the same result, so the walk
performs work bounded by the input size. -/
theorem scanSectionsF_fuel_irrel (f f' : Nat) (bs : List Nat)
    (hf : bs.length < f) (hff : f ≤ f') :
    scanSectionsF f' bs = scanSectionsF f bs := by
  induction f generalizing bs f' with
  | zero => omega
  | succ f ih =>
    obtain ⟨f'', rfl⟩ : ∃ g, f' = g + 1 := ⟨f' - 1, by omega⟩
    cases bs with
    | nil => rfl
    | cons sid rest =>
      unfold scanSectionsF
      cases hl : leb128 rest with
      | none => rfl
      | some pr =>
        obtain ⟨size, rest'⟩ := pr
        dsimp only
        cases hs : splitAtExact size rest' with
        | none => rfl
        | some pr2 =>
          obtain ⟨payload, rest''⟩ := pr2
          dsimp only
          have h1 : rest'.length < rest.length := leb128_length hl
          have h2 : rest''.length ≤ rest'.length := splitAtExact_length hs
          simp only [List.length_cons] at hf
          by_cases hid : sid = 2
          · simp only [if_pos hid]
            cases hsec : scanImportSection payload with
            | error e => rfl
            | ok b =>
              cases b with
              | true => rfl
              | false => exact ih f'' rest'' (by omega) (by omega)
          · simp only [if_neg hid]
            exact ih f'' rest'' (by omega) (by omega)

/-- Once the section scan has returned `Snapshot0`, appending any
bytes whatsoever (with at least as much fuel) cannot change the
result: nothing past the matching import entry is read. -/
theorem scanSectionsF_append_snapshot0 (f f' : Nat) (bs t : List Nat)
    (h : scanSectionsF f bs = .ok .Snapshot0) (hff : f ≤ f') :
    scanSectionsF f' (bs ++ t) = .ok .Snapshot0 := by
  induction f generalizing bs f' with
  | zero => simp [scanSectionsF] at h
  | succ f ih =>
    obtain ⟨f'', rfl⟩ : ∃ g, f' = g + 1 := ⟨f' - 1, by omega⟩
    cases bs with
    | nil => simp [scanSectionsF, WasiVersion.default] at h
    | cons sid rest =>
      rw [List.cons_append]
      unfold scanSectionsF at h ⊢
      cases hl : leb128 rest with
      | none => rw [hl] at h; dsimp only at h; exact absurd h (by simp)
      | some pr =>
        obtain ⟨size, rest'⟩ := pr
        rw [hl] at h
        rw [leb128_append hl]
        dsimp only at h ⊢
        cases hs : splitAtExact size rest' with
        | none => rw [hs] at h; dsimp only at h; exact absurd h (by simp)
        | some pr2 =>
          obtain ⟨payload, rest''⟩ := pr2
          rw [hs] at h
          rw [splitAtExact_append hs]
          dsimp only at h ⊢
          by_cases hid : sid = 2
          · simp only [if_pos hid] at h ⊢
            cases hsec : scanImportSection payload with
            | error e => rw [hsec] at h; dsimp only at h; exact absurd h (by simp)
            | ok b =>
              cases b with
              | true => rfl
              | false =>
                rw [hsec] at h
                dsimp only at h
                exact ih f'' rest'' h (by omega)
          · simp only [if_neg hid] at h ⊢
            exact ih f'' rest'' h (by omega)

/-- A successful header check forces at least 8 bytes of input. -/
theorem take8_header_length {bs : List Nat} (h : bs.take 8 = wasmHeader) :
    8 ≤ bs.length := by
  have h2 := congrArg List.length h
  rw [List.length_take] at h2
  simp [wasmHeader] at h2
  omega

/-- C1: for every module whose import section contains at least one
entry whose module-name equals the legacy name `"wasi_unstable"`,
`WasiVersion::detect` returns `Snapshot0`, regardless of where that
entry appears among the other imports. -/
theorem detect_legacy_of_mem (binary : List Nat) (names : List (List Nat))
    (h : collectImports binary = some names) (hm : wasiUnstable ∈ names) :
    WasiVersion.detect binary = .ok .Snapshot0 := by
  unfold collectImports at h
  unfold WasiVersion.detect WasiVersion.detectF
  by_cases hh : binary.take 8 = wasmHeader
  · rw [if_pos hh] at h
    rw [if_pos hh]
    exact scan_sections_mem h hm
  · rw [if_neg hh] at h
    exact absurd h (by simp)

/-- Witness for C1: the module of spec scenario 1, whose only import
is `("wasi_unstable", "", func)`. -/
theorem detect_legacy_of_mem_witness :
    collectImports modLegacy = some [wasiUnstable] ∧
    WasiVersion.detect modLegacy = .ok .Snapshot0 :=
  ⟨rfl, detect_legacy_of_mem modLegacy [wasiUnstable] rfl (by simp)⟩

/-- C2: for every well-formed module in which no import entry's
module-name equals the legacy name — including a module with no import
section at all, and one whose import section has only non-matching
entries — `WasiVersion::detect` returns `Snapshot1` as the default. -/
theorem detect_current_of_not_mem (binary : List Nat) (names : List (List Nat))
    (h : collectImports binary = some names) (hm : wasiUnstable ∉ names) :
    WasiVersion.detect binary = .ok .Snapshot1 := by
  unfold collectImports at h
  unfold WasiVersion.detect WasiVersion.detectF
  by_cases hh : binary.take 8 = wasmHeader
  · rw [if_pos hh] at h
    rw [if_pos hh]
    exact scan_sections_not_mem h hm
  · rw [if_neg hh] at h
    exact absurd h (by simp)

/-- Witness for C2: the module of spec scenario 2, whose only import
is `("wasi_snapshot_preview1", "", func)`. -/
theorem detect_current_of_not_mem_witness :
    collectImports modCurrent = some [wasiSnapshotPreview1] ∧
    WasiVersion.detect modCurrent = .ok .Snapshot1 :=
  ⟨rfl, detect_current_of_not_mem modCurrent [wasiSnapshotPreview1] rfl (by decide)⟩

/-- C3: detection short-circuits.  Once the scan of a byte sequence
returns `Snapshot0` (a legacy import matched), appending arbitrary
further bytes — any later sections or entries — cannot change the
result: nothing after the matching entry is inspected. -/
theorem detect_snapshot0_append (binary t : List Nat)
    (h : WasiVersion.detect binary = .ok .Snapshot0) :
    WasiVersion.detect (binary ++ t) = .ok .Snapshot0 := by
  unfold WasiVersion.detect WasiVersion.detectF at h ⊢
  by_cases hh : binary.take 8 = wasmHeader
  · have h8 : 8 ≤ binary.length := take8_header_length hh
    have hh2 : (binary ++ t).take 8 = wasmHeader := by
      rw [List.take_append_of_le_length h8, hh]
    rw [if_pos hh] at h
    rw [if_pos hh2, List.drop_append_of_le_length h8]
    have hlen : binary.length + 1 ≤ (binary ++ t).length + 1 := by
      rw [List.length_append]
      omega
    exact scanSectionsF_append_snapshot0 _ _ _ t h hlen
  · rw [if_neg hh] at h
    exact absurd h (by simp)

/-- Witness for C3: the legacy module followed by arbitrary junk bytes
still detects as `Snapshot0`. -/
theorem detect_snapshot0_append_witness :
    WasiVersion.detect modLegacy = .ok .Snapshot0 ∧
    WasiVersion.detect (modLegacy ++ [42, 42, 42]) = .ok .Snapshot0 :=
  ⟨rfl, detect_snapshot0_append modLegacy [42, 42, 42] rfl⟩

/-- C4 counterexample: a byte sequence that is not well-formed at the
structural level needed to enumerate imports (its final section is a
bare id with no size, so enumeration fails) on which
`WasiVersion::detect` nevertheless returns the revision `Snapshot0`
instead of failing: the legacy import was matched before the
corruption was reached. -/
theorem detect_malformed_counterexample :
    collectImports modTruncatedTail = none ∧
    WasiVersion.detect modTruncatedTail = .ok .Snapshot0 :=
  ⟨rfl, rfl⟩

/-- C4 (amended): for every byte sequence that is not well-formed at
the structural level needed to enumerate imports, `WasiVersion::detect`
never returns the default `Snapshot1`: it fails with a Malformed Input
error, unless a legacy-named import entry was parsed before the
corruption, in which case it returns `Snapshot0`. -/
theorem detect_malformed_never_current (binary : List Nat)
    (h : collectImports binary = none) :
    WasiVersion.detect binary = .ok .Snapshot0 ∨
      ∃ e, WasiVersion.detect binary = .error e := by
  unfold collectImports at h
  unfold WasiVersion.detect WasiVersion.detectF
  by_cases hh : binary.take 8 = wasmHeader
  · rw [if_pos hh] at h
    rw [if_pos hh]
    exact scan_sections_none h
  · rw [if_neg hh]
    exact Or.inr ⟨.malformed "bad wasm header", rfl⟩

/-- Witness for the amended C4: a truncated two-byte input fails. -/
theorem detect_malformed_never_current_witness :
    collectImports [0, 97] = none ∧
    (WasiVersion.detect [0, 97] = .ok .Snapshot0 ∨
      ∃ e, WasiVersion.detect [0, 97] = .error e) :=
  ⟨rfl, detect_malformed_never_current [0, 97] rfl⟩

/-- C9: `WasiVersion::detect` terminates on every finite byte sequence
with work bounded by the input size: any fuel above the input length
yields the already-settled result of the scan. -/
theorem detect_fuel_bounded (binary : List Nat) (fuel : Nat)
    (hf : binary.length < fuel) :
    WasiVersion.detectF fuel binary = WasiVersion.detect binary := by
  unfold WasiVersion.detect WasiVersion.detectF
  by_cases hh : binary.take 8 = wasmHeader
  · rw [if_pos hh, if_pos hh]
    have hd : (binary.drop 8).length ≤ binary.length := by
      rw [List.length_drop]
      omega
    rw [scanSectionsF_fuel_irrel ((binary.drop 8).length + 1) fuel
          (binary.drop 8) (by omega) (by omega),
        scanSectionsF_fuel_irrel ((binary.drop 8).length + 1) (binary.length + 1)
          (binary.drop 8) (by omega) (by omega)]
  · rw [if_neg hh, if_neg hh]

/-- Witness for C9: fuel 40 on the 28-byte legacy module. -/
theorem detect_fuel_bounded_witness :
    modLegacy.length < 40 ∧
    WasiVersion.detectF 40 modLegacy = WasiVersion.detect modLegacy :=
  ⟨by decide, detect_fuel_bounded modLegacy 40 (by decide)⟩

/-- C10: there exist byte sequences corrupted only after a
legacy-named import entry — here the second of two declared entries is
garbage, so the imports cannot be enumerated — on which
`WasiVersion::detect` returns `Snapshot0` rather than an error:
incremental parsing never reads past the first matching entry. -/
theorem detect_ignores_corruption_after_match :
    WasiVersion.detect modCorruptAfterMatch = .ok .Snapshot0 ∧
    collectImports modCorruptAfterMatch = none :=
  ⟨rfl, rfl⟩

/-- C5: construct-by-detection equals detect-then-construct: for every
external library behaviour, store, context and byte sequence,
`AutoWasi::detect` produces exactly `AutoWasi::new` applied to the
result of `WasiVersion::detect`, and fails with exactly the detection
error otherwise. -/
theorem autoWasi_detect_eq_map_new (lib : HostLib) (store : Store) (ctx : WasiCtx)
    (binary : List Nat) :
    AutoWasi.detect lib store ctx binary =
      (WasiVersion.detect binary).map (AutoWasi.new lib store ctx) := by
  unfold AutoWasi.detect
  cases h : WasiVersion.detect binary <;> rfl

/-- C6: the variant tag of every dispatcher built by `AutoWasi::new`
is the requested revision, and for every dispatcher whatsoever the tag
agrees with the implementation revision of the contained handle.  The
operations `get_export` and `add_to_linker` take the dispatcher
immutably (shared borrow in the source, plain functions here), so no
operation can change the tag or the handle after construction. -/
theorem autoWasi_tag_invariant (lib : HostLib) (store : Store) (ctx : WasiCtx) :
    (∀ version : WasiVersion, (AutoWasi.new lib store ctx version).tag = version) ∧
    (∀ w : AutoWasi, w.handleRevision = w.tag) := by
  constructor
  · intro version
    cases version <;> rfl
  · intro w
    cases w <;> rfl

/-- C7: construct-from-revision always succeeds — in the wasmtime-wasi
version this crate binds, the underlying handle constructors are
infallible, so `AutoWasi::new` is a total function and the
failure-propagation clause is vacuous.  Consequently the detection
path succeeds exactly when detection does, and any failure it surfaces
is the detection failure unchanged. -/
theorem autoWasi_new_infallible (lib : HostLib) (store : Store) (ctx : WasiCtx)
    (binary : List Nat) :
    (AutoWasi.detect lib store ctx binary).isOk = (WasiVersion.detect binary).isOk ∧
    (∀ e : WasmError,
      AutoWasi.detect lib store ctx binary = .error e ↔
        WasiVersion.detect binary = .error e) := by
  unfold AutoWasi.detect
  cases h : WasiVersion.detect binary with
  | error e =>
    refine ⟨rfl, fun e' => ?_⟩
    simp
  | ok v =>
    refine ⟨rfl, fun e' => ?_⟩
    simp

/-- A trivial external library behaviour, used to instantiate the
quantified theorems at concrete inputs. -/
def trivialLib : HostLib := ⟨fun _ _ => ⟨[]⟩, fun _ _ => ⟨[]⟩⟩

/-- Witness for C7: on a two-byte input the header check fails and the
dispatcher construction surfaces exactly the detection error. -/
theorem autoWasi_new_infallible_witness :
    WasiVersion.detect [0, 97] = .error (.malformed "bad wasm header") :=
  ((autoWasi_new_infallible trivialLib ⟨0⟩ ⟨0⟩ [0, 97]).2
      (.malformed "bad wasm header")).mp rfl

/-- C8: for every dispatcher and every name, when no function is bound
to the name in the held handle's exports, `AutoWasi::get_export`
returns `none` — absence is an `Option`, never an error. -/
theorem get_export_none_of_absent (w : AutoWasi) (name : String)
    (h : ∀ p ∈ w.exports, p.1 ≠ name) : w.get_export name = none := by
  cases w with
  | Snapshot0 wasi =>
    have hf : wasi.exports.find? (fun p => p.1 == name) = none := by
      rw [List.find?_eq_none]
      intro x hx
      simpa using h x hx
    simp [AutoWasi.get_export, Snapshot0Wasi.get_export, hf]
  | Snapshot1 wasi =>
    have hf : wasi.exports.find? (fun p => p.1 == name) = none := by
      rw [List.find?_eq_none]
      intro x hx
      simpa using h x hx
    simp [AutoWasi.get_export, Snapshot1Wasi.get_export, hf]

/-- Witness for C8: a snapshot-1 dispatcher exporting only `fd_write`
answers `none` for `proc_exit`. -/
theorem get_export_none_of_absent_witness :
    AutoWasi.get_export (.Snapshot1 ⟨[("fd_write", ⟨7⟩)]⟩) "proc_exit" = none :=
  get_export_none_of_absent (.Snapshot1 ⟨[("fd_write", ⟨7⟩)]⟩) "proc_exit"
    (by
      intro p hp
      simp [AutoWasi.exports] at hp
      subst hp
      decide)
